import Mathlib

/-!
Shallow embedding of the pnl-trading journal component
(src/src/components/PNLCalendar.tsx and src/unnamed/part_000) and proofs
about its statistics aggregator, trade record store, persistence effect,
calendar grid builder, P&L formatter and share-image guard clauses.

Conventions of the embedding:
* JS numbers (`pnl`, prices) are modelled as rationals `ℚ`.
* An ISO "YYYY-MM-DD" date string is modelled by its numeric components
  `Ymd`; lexicographic comparison of zero-padded ISO strings is exactly
  lexicographic comparison of the (year, month, day) triples, which is how
  `dateLe` models the source's string comparison `d.date >= weekAgoStr`.
* `new Date()` (the evaluation instant) is passed explicitly as `today`;
  the component state `currentMonth` (0-based, as in JS) and `currentYear`
  are passed explicitly as well.
-/

namespace PNL

/-- Calendar date, the numeric components of the ISO "YYYY-MM-DD" string
stored in the `date` field of `TradeData`. `m` is 1-based (January = 1),
as in the ISO string; the source's JS `getMonth()` is `m - 1`. -/
structure Ymd where
  y : ℕ
  m : ℕ
  d : ℕ
deriving DecidableEq, Repr

/-- Comparison of dates as the source compares ISO strings
(`d.date >= weekAgoStr`): lexicographic on (year, month, day), which is
what string comparison of zero-padded ISO dates computes. -/
def dateLe (a b : Ymd) : Bool :=
  decide (a.y < b.y ∨ (a.y = b.y ∧ (a.m < b.m ∨ (a.m = b.m ∧ a.d ≤ b.d))))

/-- Strict version of `dateLe`, used for the ascending sort by
`new Date(a.date).getTime()` in the win-streak computation. -/
def dateLt (a b : Ymd) : Bool :=
  decide (a.y < b.y ∨ (a.y = b.y ∧ (a.m < b.m ∨ (a.m = b.m ∧ a.d < b.d))))

/-- Gregorian leap-year rule, as realised by the JS `Date` rollover the
source relies on. -/
def isLeap (y : ℕ) : Bool :=
  (y % 4 == 0 && y % 100 != 0) || y % 400 == 0

/-- Days in a month (`m` 1-based), as realised by
`new Date(year, month + 1, 0).getDate()` in the source. -/
def daysInMonth (y : ℕ) : ℕ → ℕ
  | 1 => 31
  | 2 => if isLeap y then 29 else 28
  | 3 => 31
  | 4 => 30
  | 5 => 31
  | 6 => 30
  | 7 => 31
  | 8 => 31
  | 9 => 30
  | 10 => 31
  | 11 => 30
  | 12 => 31
  | _ => 0

/-- One day back with calendar rollover, as JS `setDate(getDate() - 1)`
normalises. -/
def subOneDay (x : Ymd) : Ymd :=
  if 1 < x.d then ⟨x.y, x.m, x.d - 1⟩
  else if 1 < x.m then ⟨x.y, x.m - 1, daysInMonth x.y (x.m - 1)⟩
  else ⟨x.y - 1, 12, 31⟩

/-- Going `n` days back with calendar rollover: models the source's
`weekAgo.setDate(weekAgo.getDate() - 7)`. -/
def subDays (x : Ymd) : ℕ → Ymd
  | 0 => x
  | n + 1 => subOneDay (subDays x n)

/-- The record type of the store: interface `TradeData` of the source.
`entry`, `sl`, `tp` are the optional entry / stop-loss / take-profit
fields. -/
structure TradeData where
  date : Ymd
  pnl : ℚ
  entry : Option ℚ := none
  sl : Option ℚ := none
  tp : Option ℚ := none
deriving DecidableEq, Repr

/-- The share timeframes `"daily" | "weekly" | "monthly"`. -/
inductive Timeframe
  | daily
  | weekly
  | monthly
deriving DecidableEq, Repr

/-- Result record of `calculateStats`. `winRate` is kept as the rational
value the source renders with `.toFixed(1)` (or the literal `"0"`). -/
structure Stats where
  total : ℚ
  traded : ℕ
  wins : ℕ
  losses : ℕ
  winRate : ℚ
  maxStreak : ℕ
  weeklyProfit : ℚ
deriving DecidableEq, Repr

/-- Rounding to one decimal, modelling `((wins / traded) * 100).toFixed(1)`
(ties round up; the tie direction is irrelevant to every claim below). -/
def round1 (q : ℚ) : ℚ :=
  ((⌊q * 10 + 1 / 2⌋ : ℤ) : ℚ) / 10

/-- The window filter at the top of `calculateStats`. Note the source's
`if daily / else if weekly / else` shape: the `else` branch, commented
`// monthly` in the source, also receives an unset timeframe. -/
def periodFilter (data : List TradeData) (today : Ymd)
    (currentMonth currentYear : ℕ) (tf : Option Timeframe) : List TradeData :=
  match tf with
  | some .daily => data.filter (fun d => decide (d.date = today))
  | some .weekly => data.filter (fun d => dateLe (subDays today 7) d.date)
  | _ =>
    data.filter (fun d => decide (d.date.m - 1 = currentMonth ∧ d.date.y = currentYear))

/-- Sum of P&L: `periodData.reduce((sum, d) => sum + d.pnl, 0)`. -/
def sumPnl (l : List TradeData) : ℚ :=
  l.foldl (fun sum d => sum + d.pnl) 0

/-- One step of the win-streak loop: increment and track the maximum on a
positive day, reset on a negative day, hold on a zero day. -/
def streakStep : ℕ × ℕ → ℚ → ℕ × ℕ
  | (currentStreak, maxStreak), p =>
    if 0 < p then (currentStreak + 1, max maxStreak (currentStreak + 1))
    else if p < 0 then (0, maxStreak)
    else (currentStreak, maxStreak)

/-- Spec-side description of the win-streak scan, written from the spec's
words rather than the source's loop, to be compared with the source's
fold: increment a running streak on a positive P&L, reset it on a negative
one, hold it on zero, and track the running maximum. -/
def specScan : List ℚ → ℕ → ℕ → ℕ
  | [], _, maxSoFar => maxSoFar
  | p :: ps, running, maxSoFar =>
    if 0 < p then specScan ps (running + 1) (max maxSoFar (running + 1))
    else if p < 0 then specScan ps 0 maxSoFar
    else specScan ps running maxSoFar

/-- Insertion step of the ascending sort by date. -/
def insertByDate (r : TradeData) : List TradeData → List TradeData
  | [] => [r]
  | x :: xs => if dateLt x.date r.date then x :: insertByDate r xs else r :: x :: xs

/-- Ascending sort by date, modelling
`[...periodData].sort((a, b) => getTime(a.date) - getTime(b.date))`. -/
def sortByDate : List TradeData → List TradeData
  | [] => []
  | x :: xs => insertByDate x (sortByDate xs)

/-- The source's `calculateStats`, with the implicit inputs (`data`,
`new Date()`, `currentMonth`, `currentYear`) made explicit. -/
def calculateStats (data : List TradeData) (today : Ymd)
    (currentMonth currentYear : ℕ) (tf : Option Timeframe) : Stats :=
  let periodData := periodFilter data today currentMonth currentYear tf
  let total := sumPnl periodData
  let traded := (periodData.filter (fun d => decide (d.pnl ≠ 0))).length
  let wins := (periodData.filter (fun d => decide (0 < d.pnl))).length
  let losses := (periodData.filter (fun d => decide (d.pnl < 0))).length
  let winRate : ℚ := if 0 < traded then round1 ((wins : ℚ) / (traded : ℚ) * 100) else 0
  let sortedData := sortByDate periodData
  let maxStreak := (sortedData.foldl (fun acc day => streakStep acc day.pnl) (0, 0)).2
  let weekData := data.filter (fun d => dateLe (subDays today 7) d.date)
  let weeklyProfit := sumPnl weekData
  { total := total, traded := traded, wins := wins, losses := losses,
    winRate := winRate, maxStreak := maxStreak, weeklyProfit := weeklyProfit }

/-! ### The P&L formatter `formatPNL` -/

/-- Decimal digit as a character, `0 ≤ d ≤ 9` in every use below. -/
def digitChar (d : ℕ) : Char := Char.ofNat (48 + d)

/-- Little-endian decimal digits of `n`, with enough fuel to terminate
structurally (`fuel = n` suffices since `n / 10 < n` for `0 < n`). -/
def natDigitsAux : ℕ → ℕ → List ℕ
  | 0, _ => []
  | _ + 1, 0 => []
  | fuel + 1, n + 1 => (n + 1) % 10 :: natDigitsAux fuel ((n + 1) / 10)

/-- Little-endian decimal digit characters of a natural number. -/
def natDigitChars (n : ℕ) : List Char := (natDigitsAux n n).map digitChar

/-- Plain decimal rendering of a natural number. -/
def natToDec (n : ℕ) : String :=
  if n = 0 then "0" else String.mk (natDigitChars n).reverse

/-- Thousands grouping on a little-endian digit list: a separator after
every three digits from the least significant end, as the `"en-US"`
locale of `toLocaleString` inserts. -/
def group3 : List Char → List Char
  | [] => []
  | [a] => [a]
  | [a, b] => [a, b]
  | [a, b, c] => [a, b, c]
  | a :: b :: c :: d :: rest => a :: b :: c :: ',' :: group3 (d :: rest)

/-- Decimal rendering with `"en-US"` thousands separators. -/
def natToGrouped (n : ℕ) : String :=
  if n = 0 then "0" else String.mk (group3 (natDigitChars n)).reverse

/-- JS `x.toFixed(1)` of a non-negative number (ties round up). -/
def toFixed1 (q : ℚ) : String :=
  let n := (⌊q * 10 + 1 / 2⌋).toNat
  natToDec (n / 10) ++ "." ++ String.mk [digitChar (n % 10)]

/-- JS `x.toFixed(0)` of a non-negative number (ties round up). -/
def toFixed0 (q : ℚ) : String :=
  natToDec (⌊q + 1 / 2⌋).toNat

/-- JS `toLocaleString` with the `"en-US"` locale and fraction digits
pinned to 2, of a non-negative number: thousands separators and exactly
two decimals. -/
def toLocale2 (q : ℚ) : String :=
  let n := (⌊q * 100 + 1 / 2⌋).toNat
  natToGrouped (n / 100) ++ "." ++ String.mk [digitChar (n / 10 % 10), digitChar (n % 10)]

/-- The source's `abs % 1000 === 0` test: the JS remainder is
`a - 1000 * trunc(a / 1000)`, and `trunc` is `floor` on the non-negative
`abs`. -/
def jsMod1000Eq0 (q : ℚ) : Bool :=
  decide (q = 1000 * ((⌊q / 1000⌋ : ℤ) : ℚ))

/-- The source's `formatPNL`: `"₱0"` for zero, `"+"` sign only for
positive values (negative values show the bare absolute value), `"K"`
abbreviation from 1000 up (one decimal unless exactly divisible by 1000),
two-decimal grouped rendering below 1000. -/
def formatPNL (value : ℚ) : String :=
  if value = 0 then "₱0"
  else
    let sign := if 0 < value then "+" else ""
    let a := |value|
    if 1000 ≤ a then
      let k := if jsMod1000Eq0 a then toFixed0 (a / 1000) else toFixed1 (a / 1000)
      sign ++ "₱" ++ k ++ "K"
    else
      sign ++ "₱" ++ toLocale2 a

/-! ### The trade record store: `updateTrade` and `getTrade` -/

/-- One `updateTrade` call: the date being edited (`editingDate`, non-null)
and the arguments `pnl`, `entry?`, `sl?`, `tp?`. -/
structure UpsertOp where
  date : Ymd
  pnl : ℚ
  entry : Option ℚ := none
  sl : Option ℚ := none
  tp : Option ℚ := none
deriving DecidableEq, Repr

/-- JS nullish coalescing `a ?? b` on optional numeric fields. -/
def nullish (a b : Option ℚ) : Option ℚ :=
  match a with
  | some x => some x
  | none => b

/-- The overwrite of an existing record in `updateTrade`: `pnl` is
replaced, each optional field keeps its prior value unless explicitly
supplied (`entry ?? newData[idx].entry`, and so on). -/
def mergeTrade (old : TradeData) (o : UpsertOp) : TradeData :=
  { date := o.date, pnl := o.pnl, entry := nullish o.entry old.entry,
    sl := nullish o.sl old.sl, tp := nullish o.tp old.tp }

/-- The fresh record `updateTrade` appends when no record for the date
exists: `{ date, pnl, entry, sl, tp }`. -/
def newTrade (o : UpsertOp) : TradeData :=
  { date := o.date, pnl := o.pnl, entry := o.entry, sl := o.sl, tp := o.tp }

/-- The source's `updateTrade`: replace the first record whose date
matches (`findIndex` + overwrite in place), otherwise append a new record
at the end (`[...prev, {...}]`). -/
def updateTrade (o : UpsertOp) : List TradeData → List TradeData
  | [] => [newTrade o]
  | r :: rs => if r.date = o.date then mergeTrade r o :: rs else r :: updateTrade o rs

/-- The source's `getTrade`: `data.find((d) => d.date === dateStr)`. -/
def getTrade (data : List TradeData) (date : Ymd) : Option TradeData :=
  data.find? (fun r => decide (r.date = date))

/-- A sequence of `updateTrade` calls, applied left to right. -/
def applyUpserts (store : List TradeData) (ops : List UpsertOp) : List TradeData :=
  ops.foldl (fun s o => updateTrade o s) store

/-! ### The save-data persistence effect -/

/-- Save-data effect of src/unnamed/part_000 (lines 106-118): when the
store is non-empty the whole serialized store is written under the key,
otherwise the key is removed. The persisted blob is modelled by its parsed
content. -/
def saveEffect (persisted : Option (List TradeData)) (data : List TradeData) :
    Option (List TradeData) :=
  if 0 < data.length then some data else none

/-- Save-data effect of src/src/components/PNLCalendar.tsx (lines
125-134): the write happens only when the store is non-empty, and there is
no `else` branch — an empty store leaves whatever was persisted in place. -/
def saveEffectNoRemove (persisted : Option (List TradeData)) (data : List TradeData) :
    Option (List TradeData) :=
  if 0 < data.length then some data else persisted

/-! ### The calendar grid builder `generateCalendarDays` -/

/-- Leap years of the proleptic Gregorian calendar among `0, …, y - 1`. -/
def leapsBefore (y : ℕ) : ℕ := (y + 3) / 4 - (y + 99) / 100 + (y + 399) / 400

/-- Days from 0000-01-01 to the first day of year `y`. -/
def daysBeforeYear (y : ℕ) : ℕ := 365 * y + leapsBefore y

/-- Days from the first of January to the first of month `m` (1-based) in
year `y`. -/
def daysBeforeMonth (y m : ℕ) : ℕ :=
  ((List.range (m - 1)).map (fun i => daysInMonth y (i + 1))).sum

/-- A calendar day as a day count (`m` 1-based): the linear time axis a JS
`Date` represents. Consecutive dates map to consecutive numbers. -/
def epochDay (y m d : ℕ) : ℤ :=
  ((daysBeforeYear y + daysBeforeMonth y m + d : ℕ) : ℤ) - 1

/-- JS `Date.prototype.getDay`: 0 = Sunday … 6 = Saturday. The anchor is
checked by `epochDay 2000 1 1 % 7 = 0` with 2000-01-01 a Saturday. -/
def jsGetDay (e : ℤ) : ℤ := (e + 6) % 7

/-- The source's `firstDay.getDay() || 7`: ISO day of week, Monday = 1 …
Sunday = 7. -/
def isoDow (e : ℤ) : ℤ := if jsGetDay e = 0 then 7 else jsGetDay e

/-- The source's `generateCalendarDays` (`month` 0-based as in JS): pad
on the left with the previous month's trailing dates back to a Monday,
then every day of the month; entries are the pushed `Date`s as day
counts. -/
def generateCalendarDays (year month : ℕ) : List ℤ :=
  let first := epochDay year (month + 1) 1
  let dayOfWeek := isoDow first
  let padding := dayOfWeek - 1
  let lastDay := daysInMonth year (month + 1)
  (List.range (padding.toNat + lastDay)).map (fun (i : ℕ) => first - padding + (i : ℤ))

/-! ### The share-image guard clauses -/

/-- The drawing environment `generateShareImage` probes: whether a
`window` exists, whether `canvasRef.current` is set, and whether
`canvas.getContext("2d")` yields a context. -/
structure RenderEnv where
  hasWindow : Bool
  canvas : Option Unit
  ctx2d : Option Unit
deriving DecidableEq, Repr

/-- The guard clauses of `generateShareImage` (source lines 266-272) over
an explicit store. Each missing precondition returns `null` (modelled
`none`) and the store is returned unchanged — the source never writes
`data`. The successful drawing-and-encoding path is outside this
embedding and is represented by an opaque object URL. -/
def generateShareImage (env : RenderEnv) (data : List TradeData) (today : Ymd)
    (currentMonth currentYear : ℕ) (tf : Timeframe) :
    Option String × List TradeData :=
  if env.hasWindow = false then (none, data)
  else
    match env.canvas with
    | none => (none, data)
    | some _ =>
      match env.ctx2d with
      | none => (none, data)
      | some _ =>
        let _stats := calculateStats data today currentMonth currentYear (some tf)
        (some "blob:trading-card", data)

/-! ## Theorems -/

/-- C1, counterexample: with the window selector unset, `calculateStats`
does not aggregate over all records. A store holding one record dated
2024-02-10 while the component shows January 2024 (`currentMonth = 0`,
`currentYear = 2024`) yields `total = 0`, not the store-wide sum `5`: the
source's final `else` branch (commented `// monthly`) also receives an
unset timeframe and filters to the current month. -/
theorem calculateStats_unset_not_all_records :
    (calculateStats [⟨⟨2024, 2, 10⟩, 5, none, none, none⟩] ⟨2024, 1, 20⟩ 0 2024 none).total ≠
      sumPnl [⟨⟨2024, 2, 10⟩, 5, none, none, none⟩] := by
  norm_num [calculateStats, periodFilter, sumPnl]

/-- C1, amended: with the window selector unset, `calculateStats` computes
exactly what it computes for the monthly window — every output is taken
over the records whose date falls in the current (month, year), not over
all records. -/
theorem calculateStats_unset_eq_monthly :
    ∀ (data : List TradeData) (today : Ymd) (currentMonth currentYear : ℕ),
      calculateStats data today currentMonth currentYear none =
        calculateStats data today currentMonth currentYear (some .monthly) := by
  intro data today currentMonth currentYear
  rfl

/-- C10: under the weekly timeframe, the `total` of `calculateStats`
equals its own `weeklyProfit` output — both are the sum of `pnl` over the
same trailing-date filter of the full store, evaluated at the same
instant `today`. -/
theorem weekly_total_eq_weeklyProfit :
    ∀ (data : List TradeData) (today : Ymd) (currentMonth currentYear : ℕ),
      (calculateStats data today currentMonth currentYear (some .weekly)).total =
        (calculateStats data today currentMonth currentYear (some .weekly)).weeklyProfit := by
  intro data today currentMonth currentYear
  rfl

/-- C7, counterexample: under the save-data effect of
src/src/components/PNLCalendar.tsx, a mutation that empties the store does
not delete the persisted key — the previously written blob stays in
place. -/
theorem saveEffectNoRemove_empty_cex :
    saveEffectNoRemove (some [⟨⟨2024, 1, 2⟩, 3, none, none, none⟩]) [] =
        some [⟨⟨2024, 1, 2⟩, 3, none, none, none⟩] ∧
      (some [⟨⟨2024, 1, 2⟩, 3, none, none, none⟩] : Option (List TradeData)) ≠ none := by
  decide

/-- C7, amended: after every mutation both variants re-serialize and write
the whole store when it is non-empty; when the store becomes empty, the
part_000 variant deletes the key, while the PNLCalendar.tsx variant
leaves the previously persisted value untouched (it neither writes an
empty array nor deletes). -/
theorem saveEffect_variants :
    ∀ (persisted : Option (List TradeData)) (data : List TradeData),
      saveEffect persisted data = (if data = [] then none else some data) ∧
      (data ≠ [] → saveEffectNoRemove persisted data = some data) ∧
      (data = [] → saveEffectNoRemove persisted data = persisted) := by
  intro persisted data
  cases data <;> simp [saveEffect, saveEffectNoRemove]

/-- C9: when a window exists but the drawing surface is unavailable — no
canvas element, or no 2D context — `generateShareImage` reports failure
(`null`) and the trade store, hence every statistic computed from it, is
unchanged. -/
theorem generateShareImage_no_surface :
    ∀ (env : RenderEnv) (data : List TradeData) (today : Ymd)
      (currentMonth currentYear : ℕ) (tf : Timeframe),
      env.hasWindow = true → (env.canvas = none ∨ env.ctx2d = none) →
      generateShareImage env data today currentMonth currentYear tf = (none, data) ∧
      calculateStats (generateShareImage env data today currentMonth currentYear tf).2
          today currentMonth currentYear (some tf) =
        calculateStats data today currentMonth currentYear (some tf) := by
  intro env data today currentMonth currentYear tf hw h
  rcases env with ⟨w, c, x⟩
  simp only at hw
  subst hw
  rcases h with h | h
  · simp only at h
    subst h
    exact ⟨rfl, rfl⟩
  · simp only at h
    subst h
    cases c <;> exact ⟨rfl, rfl⟩

/-- C9, witness: with a window, no canvas and no context, the export
fails and the (empty) store is returned unchanged. -/
theorem generateShareImage_no_surface_witness :
    generateShareImage ⟨true, none, none⟩ [] ⟨2024, 1, 1⟩ 0 2024 .daily =
      (none, ([] : List TradeData)) :=
  (generateShareImage_no_surface ⟨true, none, none⟩ [] ⟨2024, 1, 1⟩ 0 2024 .daily rfl
    (Or.inl rfl)).1

/-- C4, counterexample: with today = 2024-01-20, the weekly filter keeps a
record dated 2024-01-13, yet 2024-01-13 is none of the 7 calendar days
ending at today (2024-01-14 … 2024-01-20): the source's condition
`d.date >= weekAgoStr` with `weekAgo = today - 7 days` spans eight
calendar days. -/
theorem weekly_window_cex :
    periodFilter [⟨⟨2024, 1, 13⟩, 1, none, none, none⟩] ⟨2024, 1, 20⟩ 0 2024 (some .weekly) =
        [⟨⟨2024, 1, 13⟩, 1, none, none, none⟩] ∧
      (∀ k, k < 7 → subDays ⟨2024, 1, 20⟩ k ≠ (⟨2024, 1, 13⟩ : Ymd)) := by
  decide

/-- C4, amended: the weekly window (and the always-computed
`weeklyProfit`) selects exactly the records whose date is on or after
today minus 7 calendar days — a trailing window of eight calendar days
inclusive of today, together with any record dated in the future. -/
theorem weekly_window_amended :
    ∀ (data : List TradeData) (today : Ymd) (currentMonth currentYear : ℕ)
      (r : TradeData) (tf : Option Timeframe),
      (r ∈ periodFilter data today currentMonth currentYear (some .weekly) ↔
        r ∈ data ∧ dateLe (subDays today 7) r.date = true) ∧
      (calculateStats data today currentMonth currentYear tf).weeklyProfit =
        sumPnl (data.filter (fun d => dateLe (subDays today 7) d.date)) := by
  intro data today currentMonth currentYear r tf
  constructor
  · simp [periodFilter, List.mem_filter]
  · rfl

/-- C2, counterexample: a January 2024 store holding a single losing day
has `winRate = 0` while `tradedDays = 1`, so `winRate` being zero does not
imply `tradedDays = 0`. -/
theorem winRate_zero_with_losing_day :
    (calculateStats [⟨⟨2024, 1, 10⟩, -5, none, none, none⟩] ⟨2024, 1, 20⟩ 0 2024 none).winRate =
        0 ∧
      (calculateStats [⟨⟨2024, 1, 10⟩, -5, none, none, none⟩] ⟨2024, 1, 20⟩ 0 2024 none).traded =
        1 := by
  constructor
  · norm_num [calculateStats, periodFilter, round1]
  · norm_num [calculateStats, periodFilter]

/-- Filtering with a stronger predicate keeps at most as many elements. -/
theorem length_filter_mono {α : Type} (l : List α) (p q : α → Bool)
    (h : ∀ a, p a = true → q a = true) :
    (l.filter p).length ≤ (l.filter q).length := by
  induction l with
  | nil => simp
  | cons a t ih =>
    by_cases hp : p a = true
    · have hq := h a hp
      simp only [List.filter_cons, hp, hq, if_true, List.length_cons]
      omega
    · have hp' : p a = false := by simpa using hp
      by_cases hq : q a = true
      · simp only [List.filter_cons, hp', hq, if_true, Bool.false_eq_true, if_false,
          List.length_cons]
        omega
      · have hq' : q a = false := by simpa using hq
        simp only [List.filter_cons, hp', hq', Bool.false_eq_true, if_false]
        exact ih

/-- Rounding to one decimal keeps non-negative values non-negative. -/
theorem round1_nonneg (q : ℚ) (h : 0 ≤ q) : 0 ≤ round1 q := by
  unfold round1
  have h0 : (0 : ℤ) ≤ ⌊q * 10 + 1 / 2⌋ := by
    apply Int.le_floor.mpr
    push_cast
    linarith
  have h0' : (0 : ℚ) ≤ ((⌊q * 10 + 1 / 2⌋ : ℤ) : ℚ) := by exact_mod_cast h0
  exact div_nonneg h0' (by norm_num)

/-- Rounding to one decimal keeps values at most 100 at most 100. -/
theorem round1_le_100 (q : ℚ) (h : q ≤ 100) : round1 q ≤ 100 := by
  unfold round1
  have h1 : ⌊q * 10 + 1 / 2⌋ < 1001 := by
    apply Int.floor_lt.mpr
    push_cast
    linarith
  have h2 : (((⌊q * 10 + 1 / 2⌋ : ℤ) : ℚ)) ≤ 1000 := by
    exact_mod_cast Int.lt_add_one_iff.mp h1
  rw [div_le_iff₀ (by norm_num : (0 : ℚ) < 10)]
  linarith

/-- C2, amended: for every store and window, `winRate` lies in `[0, 100]`,
equals `wins / tradedDays * 100` rounded to one decimal when
`tradedDays > 0`, and equals `0` when `tradedDays = 0` — but not only
then: a window of losing days also has `winRate = 0` (see the
counterexample), so zero win rate does not imply zero traded days. -/
theorem winRate_in_range :
    ∀ (data : List TradeData) (today : Ymd) (currentMonth currentYear : ℕ)
      (tf : Option Timeframe),
      0 ≤ (calculateStats data today currentMonth currentYear tf).winRate ∧
      (calculateStats data today currentMonth currentYear tf).winRate ≤ 100 ∧
      ((calculateStats data today currentMonth currentYear tf).traded = 0 →
        (calculateStats data today currentMonth currentYear tf).winRate = 0) ∧
      (0 < (calculateStats data today currentMonth currentYear tf).traded →
        (calculateStats data today currentMonth currentYear tf).winRate =
          round1 (((calculateStats data today currentMonth currentYear tf).wins : ℚ) /
            ((calculateStats data today currentMonth currentYear tf).traded : ℚ) * 100)) := by
  intro data today cm cy tf
  have hT : (calculateStats data today cm cy tf).traded =
      ((periodFilter data today cm cy tf).filter (fun d => decide (d.pnl ≠ 0))).length := rfl
  have hW : (calculateStats data today cm cy tf).wins =
      ((periodFilter data today cm cy tf).filter (fun d => decide (0 < d.pnl))).length := rfl
  have hR : (calculateStats data today cm cy tf).winRate =
      (if 0 < ((periodFilter data today cm cy tf).filter (fun d => decide (d.pnl ≠ 0))).length
        then round1
          ((((periodFilter data today cm cy tf).filter (fun d => decide (0 < d.pnl))).length : ℚ) /
            (((periodFilter data today cm cy tf).filter
              (fun d => decide (d.pnl ≠ 0))).length : ℚ) * 100)
        else 0) := rfl
  set P := periodFilter data today cm cy tf
  set t := (P.filter (fun d => decide (d.pnl ≠ 0))).length with ht
  set w := (P.filter (fun d => decide (0 < d.pnl))).length with hw
  have hwt : w ≤ t := by
    apply length_filter_mono
    intro a ha
    have hpos : 0 < a.pnl := of_decide_eq_true ha
    exact decide_eq_true (ne_of_gt hpos)
  by_cases htpos : 0 < t
  · have hval : (calculateStats data today cm cy tf).winRate =
        round1 ((w : ℚ) / (t : ℚ) * 100) := by rw [hR, if_pos htpos]
    have harg0 : 0 ≤ (w : ℚ) / (t : ℚ) * 100 := by positivity
    have harg100 : (w : ℚ) / (t : ℚ) * 100 ≤ 100 := by
      have htQ : (0 : ℚ) < (t : ℚ) := by exact_mod_cast htpos
      have hle : (w : ℚ) / (t : ℚ) ≤ 1 := by
        rw [div_le_one htQ]
        exact_mod_cast hwt
      nlinarith
    refine ⟨?_, ?_, ?_, ?_⟩
    · rw [hval]
      exact round1_nonneg _ harg0
    · rw [hval]
      exact round1_le_100 _ harg100
    · intro h0
      rw [hT] at h0
      exact absurd h0 (by omega)
    · intro _
      rw [hval, hW, hT]
  · have hval : (calculateStats data today cm cy tf).winRate = 0 := by
      rw [hR, if_neg htpos]
    refine ⟨by rw [hval], by rw [hval]; norm_num, fun _ => hval, ?_⟩
    intro hpos
    rw [hT] at hpos
    exact absurd hpos htpos

/-- The source's streak fold (over the sorted records) computes the same
value as the spec-side scan over the extracted P&L sequence. -/
theorem streak_foldl_eq_specScan :
    ∀ (l : List TradeData) (cur mx : ℕ),
      (l.foldl (fun acc day => streakStep acc day.pnl) (cur, mx)).2 =
        specScan (l.map (fun d => d.pnl)) cur mx := by
  intro l
  induction l with
  | nil => intro cur mx; rfl
  | cons a t ih =>
    intro cur mx
    simp only [List.foldl_cons, List.map_cons, specScan, streakStep]
    by_cases h1 : 0 < a.pnl
    · simp only [if_pos h1]
      exact ih _ _
    · by_cases h2 : a.pnl < 0
      · simp only [if_neg h1, if_pos h2]
        exact ih _ _
      · simp only [if_neg h1, if_neg h2]
        exact ih _ _

/-- C3: `maxWinStreak` is the single ascending-by-date scan that
increments the streak on positive P&L, resets on negative P&L and holds
on zero P&L, tracking the running maximum; on the daily P&L sequence
`[+10, 0, +5, -1, +20]` (dated 2024-01-10 … 2024-01-14) it yields `2`. -/
theorem maxStreak_scan :
    (∀ (data : List TradeData) (today : Ymd) (currentMonth currentYear : ℕ)
        (tf : Option Timeframe),
        (calculateStats data today currentMonth currentYear tf).maxStreak =
          specScan
            ((sortByDate (periodFilter data today currentMonth currentYear tf)).map
              (fun d => d.pnl)) 0 0) ∧
      (calculateStats
          [⟨⟨2024, 1, 10⟩, 10, none, none, none⟩, ⟨⟨2024, 1, 11⟩, 0, none, none, none⟩,
            ⟨⟨2024, 1, 12⟩, 5, none, none, none⟩, ⟨⟨2024, 1, 13⟩, -1, none, none, none⟩,
            ⟨⟨2024, 1, 14⟩, 20, none, none, none⟩]
          ⟨2024, 1, 20⟩ 0 2024 (some .monthly)).maxStreak = 2 := by
  constructor
  · intro data today cm cy tf
    have h : (calculateStats data today cm cy tf).maxStreak =
        ((sortByDate (periodFilter data today cm cy tf)).foldl
          (fun acc day => streakStep acc day.pnl) (0, 0)).2 := rfl
    rw [h, streak_foldl_eq_specScan]
  · decide

/-- Every entry produced by the digit extraction is a decimal digit. -/
theorem natDigitsAux_lt_ten : ∀ (fuel n d : ℕ), d ∈ natDigitsAux fuel n → d < 10 := by
  intro fuel
  induction fuel with
  | zero => intro n d h; simp [natDigitsAux] at h
  | succ f ih =>
    intro n d h
    cases n with
    | zero => simp [natDigitsAux] at h
    | succ m =>
      simp only [natDigitsAux, List.mem_cons] at h
      rcases h with h | h
      · subst h
        exact Nat.mod_lt _ (by norm_num)
      · exact ih _ _ h

/-- A decimal digit character is never the minus sign. -/
theorem digitChar_ne_dash : ∀ d : ℕ, d < 10 → digitChar d ≠ '-' := by decide

/-- The digit characters of a natural number never include a minus sign. -/
theorem not_dash_mem_natDigitChars (n : ℕ) : '-' ∉ natDigitChars n := by
  intro h
  obtain ⟨d, hd, hc⟩ := List.mem_map.mp h
  exact digitChar_ne_dash d (natDigitsAux_lt_ten n n d hd) hc

/-- String concatenation concatenates the underlying character lists. -/
theorem strData_append (s t : String) : (s ++ t).data = s.data ++ t.data := by
  cases s; cases t; rfl

/-- Plain decimal rendering never contains a minus sign. -/
theorem not_dash_mem_natToDec (n : ℕ) : '-' ∉ (natToDec n).data := by
  unfold natToDec
  split
  · decide
  · intro h
    have h2 : '-' ∈ (natDigitChars n).reverse := h
    rw [List.mem_reverse] at h2
    exact not_dash_mem_natDigitChars n h2

/-- Thousands grouping only adds separator characters. -/
theorem mem_group3 : ∀ (l : List Char) (c : Char), c ∈ group3 l → c ∈ l ∨ c = ',' := by
  intro l
  induction l using group3.induct with
  | case1 => intro c h; simp [group3] at h
  | case2 a => intro c h; exact Or.inl h
  | case3 a b => intro c h; exact Or.inl h
  | case4 a b cc => intro c h; exact Or.inl h
  | case5 a b cc d rest ih =>
    intro c h
    simp only [group3, List.mem_cons] at h ⊢
    rcases h with h | h | h | h | h
    · tauto
    · tauto
    · tauto
    · tauto
    · rcases ih c h with h2 | h2
      · simp at h2; tauto
      · tauto

/-- Grouped decimal rendering never contains a minus sign. -/
theorem not_dash_mem_natToGrouped (n : ℕ) : '-' ∉ (natToGrouped n).data := by
  unfold natToGrouped
  split
  · decide
  · intro h
    have h2 : '-' ∈ (group3 (natDigitChars n)).reverse := h
    rw [List.mem_reverse] at h2
    rcases mem_group3 _ _ h2 with h3 | h3
    · exact not_dash_mem_natDigitChars n h3
    · exact absurd h3 (by decide)

/-- The `toFixed1` rendering never emits a minus sign. -/
theorem not_dash_toFixed1 (q : ℚ) : '-' ∉ (toFixed1 q).data := by
  have he : toFixed1 q = natToDec ((⌊q * 10 + 1 / 2⌋).toNat / 10) ++ "." ++
      String.mk [digitChar ((⌊q * 10 + 1 / 2⌋).toNat % 10)] := rfl
  rw [he, strData_append, strData_append]
  intro h
  rcases List.mem_append.mp h with h1 | h1
  · rcases List.mem_append.mp h1 with h2 | h2
    · exact not_dash_mem_natToDec _ h2
    · exact absurd h2 (by decide)
  · have h2 : '-' ∈ [digitChar ((⌊q * 10 + 1 / 2⌋).toNat % 10)] := h1
    simp only [List.mem_singleton] at h2
    exact digitChar_ne_dash _ (Nat.mod_lt _ (by norm_num)) h2.symm

/-- The `toFixed0` rendering never emits a minus sign. -/
theorem not_dash_toFixed0 (q : ℚ) : '-' ∉ (toFixed0 q).data :=
  not_dash_mem_natToDec _

/-- The `toLocaleString` rendering never emits a minus sign. -/
theorem not_dash_toLocale2 (q : ℚ) : '-' ∉ (toLocale2 q).data := by
  have he : toLocale2 q = natToGrouped ((⌊q * 100 + 1 / 2⌋).toNat / 100) ++ "." ++
      String.mk [digitChar ((⌊q * 100 + 1 / 2⌋).toNat / 10 % 10),
        digitChar ((⌊q * 100 + 1 / 2⌋).toNat % 10)] := rfl
  rw [he, strData_append, strData_append]
  intro h
  rcases List.mem_append.mp h with h1 | h1
  · rcases List.mem_append.mp h1 with h2 | h2
    · exact not_dash_mem_natToGrouped _ h2
    · exact absurd h2 (by decide)
  · have h2 : '-' ∈ [digitChar ((⌊q * 100 + 1 / 2⌋).toNat / 10 % 10),
        digitChar ((⌊q * 100 + 1 / 2⌋).toNat % 10)] := h1
    simp only [List.mem_cons, List.not_mem_nil, or_false] at h2
    rcases h2 with h2 | h2
    · exact digitChar_ne_dash _ (Nat.mod_lt _ (by norm_num)) h2.symm
    · exact digitChar_ne_dash _ (Nat.mod_lt _ (by norm_num)) h2.symm

/-- The sign prefix is `"+"` or empty, never a minus sign. -/
theorem not_dash_sign (v : ℚ) : '-' ∉ (if 0 < v then "+" else "").data := by
  split <;> decide

/-- C5: `formatPNL` sends `0` to `"₱0"`, `1500` to `"+₱1.5K"`, `2000` to
`"+₱2K"` and `42.5` to `"+₱42.50"`, and for every input — negative values
included — its output never contains the character `'-'`: the sign prefix
is `"+"` or empty and the magnitude rendered is the absolute value. -/
theorem formatPNL_spec :
    formatPNL 0 = "₱0" ∧ formatPNL 1500 = "+₱1.5K" ∧ formatPNL 2000 = "+₱2K" ∧
      formatPNL (85 / 2) = "+₱42.50" ∧ ∀ v : ℚ, '-' ∉ (formatPNL v).data := by
  refine ⟨?_, ?_, ?_, ?_, ?_⟩
  · unfold formatPNL
    norm_num
  · unfold formatPNL
    norm_num [jsMod1000Eq0, toFixed1]
    decide
  · unfold formatPNL
    norm_num [jsMod1000Eq0, toFixed0]
    decide
  · unfold formatPNL
    norm_num [jsMod1000Eq0, toLocale2, abs_div]
    decide
  · intro v
    have he : formatPNL v = (if v = 0 then "₱0" else
        (if 1000 ≤ |v| then
          (if 0 < v then "+" else "") ++ "₱" ++
            (if jsMod1000Eq0 |v| then toFixed0 (|v| / 1000) else toFixed1 (|v| / 1000)) ++ "K"
        else (if 0 < v then "+" else "") ++ "₱" ++ toLocale2 |v|)) := rfl
    rw [he]
    split
    · decide
    · split
      · rw [strData_append, strData_append, strData_append]
        intro h
        rcases List.mem_append.mp h with h1 | h1
        · rcases List.mem_append.mp h1 with h2 | h2
          · rcases List.mem_append.mp h2 with h3 | h3
            · exact not_dash_sign v h3
            · exact absurd h3 (by decide)
          · split at h2
            · exact not_dash_toFixed0 _ h2
            · exact not_dash_toFixed1 _ h2
        · exact absurd h1 (by decide)
      · rw [strData_append, strData_append]
        intro h
        rcases List.mem_append.mp h with h1 | h1
        · rcases List.mem_append.mp h1 with h2 | h2
          · exact not_dash_sign v h2
          · exact absurd h2 (by decide)
        · exact not_dash_toLocale2 _ h1

/-- Lookup hits a matching head record. -/
theorem getTrade_cons_pos (r : TradeData) (rs : List TradeData) (date : Ymd)
    (h : r.date = date) : getTrade (r :: rs) date = some r := by
  unfold getTrade
  exact List.find?_cons_of_pos _ (by simp [h])

/-- Lookup skips a non-matching head record. -/
theorem getTrade_cons_neg (r : TradeData) (rs : List TradeData) (date : Ymd)
    (h : r.date ≠ date) : getTrade (r :: rs) date = getTrade rs date := by
  unfold getTrade
  exact List.find?_cons_of_neg _ (by simp [h])

/-- Looking up the upserted date finds the merged (or fresh) record. -/
theorem getTrade_updateTrade_self (o : UpsertOp) :
    ∀ s : List TradeData,
      getTrade (updateTrade o s) o.date =
        some (match getTrade s o.date with
          | some r => mergeTrade r o
          | none => newTrade o) := by
  intro s
  induction s with
  | nil =>
    have h1 : getTrade (updateTrade o []) o.date = some (newTrade o) :=
      getTrade_cons_pos _ _ _ rfl
    have h2 : getTrade [] o.date = none := rfl
    rw [h1, h2]
  | cons r rs ih =>
    by_cases h : r.date = o.date
    · have hu : updateTrade o (r :: rs) = mergeTrade r o :: rs := by
        simp [updateTrade, h]
      rw [hu, getTrade_cons_pos (mergeTrade r o) rs o.date rfl,
        getTrade_cons_pos r rs o.date h]
    · have hu : updateTrade o (r :: rs) = r :: updateTrade o rs := by
        simp [updateTrade, h]
      rw [hu, getTrade_cons_neg _ _ _ h, getTrade_cons_neg _ _ _ h, ih]

/-- Looking up any other date is unaffected by an upsert. -/
theorem getTrade_updateTrade_other (o : UpsertOp) (date : Ymd) (hne : date ≠ o.date) :
    ∀ s : List TradeData, getTrade (updateTrade o s) date = getTrade s date := by
  intro s
  induction s with
  | nil =>
    have h1 : getTrade (updateTrade o []) date = getTrade [] date :=
      getTrade_cons_neg (newTrade o) [] date (fun hd => hne hd.symm)
    exact h1
  | cons r rs ih =>
    by_cases h : r.date = o.date
    · have hu : updateTrade o (r :: rs) = mergeTrade r o :: rs := by
        simp [updateTrade, h]
      have hm : (mergeTrade r o).date ≠ date := fun hd => hne hd.symm
      have hr : r.date ≠ date := fun hd => hne (h.symm.trans hd).symm
      rw [hu, getTrade_cons_neg _ _ _ hm, getTrade_cons_neg _ _ _ hr]
    · have hu : updateTrade o (r :: rs) = r :: updateTrade o rs := by
        simp [updateTrade, h]
      by_cases hr : r.date = date
      · rw [hu, getTrade_cons_pos _ _ _ hr, getTrade_cons_pos _ _ _ hr]
      · rw [hu, getTrade_cons_neg _ _ _ hr, getTrade_cons_neg _ _ _ hr, ih]

/-- The dates after an upsert: unchanged when the date was present,
extended by the new date at the end otherwise. -/
theorem dates_updateTrade (o : UpsertOp) :
    ∀ s : List TradeData,
      (updateTrade o s).map (fun r => r.date) =
        if o.date ∈ s.map (fun r => r.date) then s.map (fun r => r.date)
        else s.map (fun r => r.date) ++ [o.date] := by
  intro s
  induction s with
  | nil => simp [updateTrade, newTrade]
  | cons r rs ih =>
    by_cases h : r.date = o.date
    · have hu : updateTrade o (r :: rs) = mergeTrade r o :: rs := by
        simp [updateTrade, h]
      simp [hu, mergeTrade, h]
    · have hu : updateTrade o (r :: rs) = r :: updateTrade o rs := by
        simp [updateTrade, h]
      by_cases hmem : o.date ∈ rs.map (fun r => r.date)
      · simp [hu, ih, hmem, Ne.symm h]
      · simp [hu, ih, hmem, Ne.symm h]

/-- An upsert never introduces a duplicate date. -/
theorem nodup_dates_updateTrade (o : UpsertOp) (s : List TradeData)
    (h : (s.map (fun r => r.date)).Nodup) :
    ((updateTrade o s).map (fun r => r.date)).Nodup := by
  rw [dates_updateTrade]
  split
  · exact h
  · rename_i hnot
    simp [List.nodup_append, h, hnot]

/-- C6: for every upsert sequence from a store with pairwise-distinct
dates, `get(date)` afterwards returns exactly the fold of the sequence's
writes to that date over the prior record — the most recent `pnl`, and
for each optional field the most recently explicitly supplied value,
prior values retained when a call omits the field — and the store never
holds two records with the same date. -/
theorem upsert_get_most_recent :
    ∀ (ops : List UpsertOp) (store : List TradeData) (date : Ymd),
      (store.map (fun r => r.date)).Nodup →
      getTrade (applyUpserts store ops) date =
          ops.foldl
            (fun acc o =>
              if o.date = date then
                some (match acc with
                  | some r => mergeTrade r o
                  | none => newTrade o)
              else acc)
            (getTrade store date) ∧
        ((applyUpserts store ops).map (fun r => r.date)).Nodup := by
  intro ops
  induction ops with
  | nil => exact fun store date h => ⟨rfl, h⟩
  | cons o ops ih =>
    intro store date h
    have hnd := nodup_dates_updateTrade o store h
    have hih := ih (updateTrade o store) date hnd
    have hstep : getTrade (updateTrade o store) date =
        (if o.date = date then
          some (match getTrade store date with
            | some r => mergeTrade r o
            | none => newTrade o)
        else getTrade store date) := by
      by_cases hd : o.date = date
      · rw [if_pos hd, ← hd]
        exact getTrade_updateTrade_self o store
      · rw [if_neg hd]
        exact getTrade_updateTrade_other o date (Ne.symm hd) store
    refine ⟨?_, hih.2⟩
    have happ : applyUpserts store (o :: ops) = applyUpserts (updateTrade o store) ops := rfl
    rw [happ, hih.1, hstep]
    rfl

/-- C6, witness: from the empty store, an insert for 2024-01-05 with
`pnl = 10` and `entry = 100`, followed by an upsert for the same date with
`pnl = -3` and `sl = 95` (entry and take-profit omitted), leaves one
record with the newest `pnl`, the retained `entry`, and the new `sl`. -/
theorem upsert_get_most_recent_witness :
    getTrade
        (applyUpserts []
          [⟨⟨2024, 1, 5⟩, 10, some 100, none, none⟩, ⟨⟨2024, 1, 5⟩, -3, none, some 95, none⟩])
        ⟨2024, 1, 5⟩ =
      some ⟨⟨2024, 1, 5⟩, -3, some 100, some 95, none⟩ := by
  have h := (upsert_get_most_recent
    [⟨⟨2024, 1, 5⟩, 10, some 100, none, none⟩, ⟨⟨2024, 1, 5⟩, -3, none, some 95, none⟩]
    [] ⟨2024, 1, 5⟩ (by simp)).1
  rw [h]
  decide

/-- Every real month has at least one day. -/
theorem daysInMonth_pos (y m : ℕ) (h1 : 1 ≤ m) (h2 : m ≤ 12) : 0 < daysInMonth y m := by
  interval_cases m <;> simp only [daysInMonth] <;> (try split) <;> norm_num

/-- The ISO day of week is between Monday (1) and Sunday (7). -/
theorem isoDow_bounds (e : ℤ) : 1 ≤ isoDow e ∧ isoDow e ≤ 7 := by
  unfold isoDow jsGetDay
  split <;> omega

/-- Stepping back by the ISO-day-of-week excess lands on a Monday. -/
theorem isoDow_monday (e : ℤ) : isoDow (e - (isoDow e - 1)) = 1 := by
  unfold isoDow jsGetDay
  by_cases h : (e + 6) % 7 = 0
  · rw [if_pos h]
    split <;> omega
  · rw [if_neg h]
    split <;> omega

/-- C8: for every year and month index, the calendar grid holds exactly
`padding + daysInMonth` entries where `padding` is the ISO-day-of-week
excess of the month's first day; the entries are the consecutive dates
from the Monday-aligned start (the first entry falls on an ISO Monday) up
to the month's last day, with no trailing padding after it. -/
theorem generateCalendarDays_spec :
    ∀ (year month : ℕ), month < 12 →
      (generateCalendarDays year month).length =
          (isoDow (epochDay year (month + 1) 1) - 1).toNat + daysInMonth year (month + 1) ∧
        isoDow (epochDay year (month + 1) 1 - (isoDow (epochDay year (month + 1) 1) - 1)) = 1 ∧
        ∀ e : ℤ, e ∈ generateCalendarDays year month ↔
          epochDay year (month + 1) 1 - (isoDow (epochDay year (month + 1) 1) - 1) ≤ e ∧
            e ≤ epochDay year (month + 1) (daysInMonth year (month + 1)) := by
  intro year month hm
  have hD : 0 < daysInMonth year (month + 1) :=
    daysInMonth_pos year (month + 1) (by omega) (by omega)
  obtain ⟨hb1, hb2⟩ := isoDow_bounds (epochDay year (month + 1) 1)
  have hlast : epochDay year (month + 1) (daysInMonth year (month + 1)) =
      epochDay year (month + 1) 1 + (daysInMonth year (month + 1) : ℤ) - 1 := by
    unfold epochDay
    push_cast
    ring
  have hlen : (generateCalendarDays year month).length =
      (isoDow (epochDay year (month + 1) 1) - 1).toNat + daysInMonth year (month + 1) := by
    simp only [generateCalendarDays, List.length_map, List.length_range]
  refine ⟨hlen, isoDow_monday _, ?_⟩
  intro e
  unfold generateCalendarDays
  simp only [List.mem_map, List.mem_range]
  constructor
  · rintro ⟨i, hi, rfl⟩
    constructor <;> omega
  · rintro ⟨h1, h2⟩
    refine ⟨(e - (epochDay year (month + 1) 1 -
      (isoDow (epochDay year (month + 1) 1) - 1))).toNat, ?_, ?_⟩ <;> omega

/-- C8, witness: February 2024 starts on a Thursday (ISO day 4), so the
grid holds 3 padding entries plus 29 days. -/
theorem generateCalendarDays_spec_witness :
    (generateCalendarDays 2024 1).length = 32 := by
  have h := (generateCalendarDays_spec 2024 1 (by omega)).1
  rw [h]
  decide

end PNL
